import Mathlib

/-!
Shallow embedding of the ubicity wasm kernel (src/wasm/src/lib.rs): an
experience validator, a domain co-occurrence network builder, and a Jaccard
similarity scorer, together with proofs of the specified properties.

Modelling conventions:
* Rust `String` is Lean `String`; Rust string order (byte-wise lexicographic
  on UTF-8) agrees with Lean's codepoint-lexicographic `String` order, since
  UTF-8 byte order coincides with codepoint order.
* `f64` latitude/longitude values are modelled as `Rat`; the code only ever
  compares them against the exact literals -90, 90, -180, 180, and those
  comparisons are order comparisons that `Rat` reproduces faithfully.
* `serde_json` parsing and serialisation live outside this repository; the
  parse step in `ExperienceValidator.validate` is modelled by taking the
  parse outcome (`Except String Experience`) as the input, exactly as the
  Rust code matches on `serde_json::from_str`'s `Result`.
* The two `HashMap`s in `build_network` are modelled as association lists in
  insertion order with at most one entry per key, which is the observable
  content of a `HashMap` (its iteration order is unspecified, and the spec
  demands `nodes`/`edges` be treated as unordered).
-/

namespace Ubicity

/-- `struct Learner { id: String }`. -/
structure Learner where
  id : String
  deriving DecidableEq

/-- `struct Coordinates { latitude: f64, longitude: f64 }`, reals as `Rat`. -/
structure Coordinates where
  latitude : Rat
  longitude : Rat
  deriving DecidableEq

/-- `struct Location { name: String, coordinates: Option<Coordinates> }`. -/
structure Location where
  name : String
  coordinates : Option Coordinates
  deriving DecidableEq

/-- `struct Context { location: Location }`. -/
structure Context where
  location : Location
  deriving DecidableEq

/-- `struct ExperienceData { type_field: String, description: String, domains: Option<Vec<String>> }`
(the serialized key of `type_field` is literally `type`). -/
structure ExperienceData where
  type_field : String
  description : String
  domains : Option (List String)
  deriving DecidableEq

/-- `struct Experience`: the full record shape. -/
structure Experience where
  id : String
  timestamp : String
  learner : Learner
  context : Context
  experience : ExperienceData
  deriving DecidableEq

/-- `struct ValidationResult { valid: bool, errors: Vec<String> }`. -/
structure ValidationResult where
  valid : Bool
  errors : List String
  deriving DecidableEq

/-- `struct ExperienceValidator { strict_mode: bool }`. -/
structure ExperienceValidator where
  strict_mode : Bool
  deriving DecidableEq

/-- `ExperienceValidator::new(strict_mode)`. -/
def ExperienceValidator.new (strict_mode : Bool) : ExperienceValidator :=
  { strict_mode := strict_mode }

/-- `ExperienceValidator::validate_experience`: sequentially pushes one error
message per violated check onto a growing vector, then sets
`valid := errors.is_empty()`. -/
def ExperienceValidator.validate_experience (_v : ExperienceValidator)
    (exp : Experience) : ValidationResult :=
  let errors : List String := []
  let errors := if exp.id.isEmpty then errors ++ ["id is required"] else errors
  let errors := if exp.timestamp.isEmpty then errors ++ ["timestamp is required"] else errors
  let errors := if exp.learner.id.isEmpty then errors ++ ["learner.id is required"] else errors
  let errors := if exp.context.location.name.isEmpty then
    errors ++ ["context.location.name is required"] else errors
  let errors := if exp.experience.type_field.isEmpty then
    errors ++ ["experience.type is required"] else errors
  let errors := if exp.experience.description.isEmpty then
    errors ++ ["experience.description is required"] else errors
  let errors :=
    match exp.context.location.coordinates with
    | some coords =>
      let errors := if coords.latitude < -90 ∨ coords.latitude > 90 then
        errors ++ ["latitude must be between -90 and 90"] else errors
      if coords.longitude < -180 ∨ coords.longitude > 180 then
        errors ++ ["longitude must be between -180 and 180"] else errors
    | none => errors
  { valid := errors.isEmpty, errors := errors }

/-- `ExperienceValidator::validate`: matches on the `serde_json::from_str`
outcome; on success runs the field checks, on failure returns a single
`"Parse error: ..."` result. The JSON decode itself is external to this
repository, so the function takes the parse outcome directly. -/
def ExperienceValidator.validate (v : ExperienceValidator)
    (input : Except String Experience) : ValidationResult :=
  match input with
  | Except.ok exp => v.validate_experience exp
  | Except.error e => { valid := false, errors := ["Parse error: " ++ e] }

/-- `struct NetworkNode { id: String, size: usize }`. -/
structure NetworkNode where
  id : String
  size : Nat
  deriving DecidableEq

/-- `struct NetworkEdge { source: String, target: String, weight: usize }`. -/
structure NetworkEdge where
  source : String
  target : String
  weight : Nat
  deriving DecidableEq

/-- `struct DomainNetwork { nodes: Vec<NetworkNode>, edges: Vec<NetworkEdge> }`. -/
structure DomainNetwork where
  nodes : List NetworkNode
  edges : List NetworkEdge
  deriving DecidableEq

/-- `*map.entry(k).or_insert(0) += 1` on a `HashMap<_, usize>` modelled as an
association list: increment the entry for `k` if present, else append `(k, 1)`. -/
def bump {α : Type} [DecidableEq α] : List (α × Nat) → α → List (α × Nat)
  | [], k => [(k, 1)]
  | (k', v) :: rest, k =>
    if k' = k then (k', v + 1) :: rest else (k', v) :: bump rest k

/-- The pair reordering in `build_network`: `if pair.0 > pair.1 { swap }`. -/
def canonPair (a b : String) : String × String :=
  if a > b then (b, a) else (a, b)

/-- The doubly nested index loop of `build_network`: all pairs
`(domains[i], domains[j])` with `i < j`, each put in canonical order. -/
def pairsOf : List String → List (String × String)
  | [] => []
  | d :: rest => rest.map (canonPair d) ++ pairsOf rest

/-- The body of `build_network`'s `for exp in experiences` loop: skip records
without a `domains` list, otherwise bump every domain occurrence in the node
map and every canonical index pair in the edge map. -/
def processExperience
    (acc : List (String × Nat) × List ((String × String) × Nat))
    (exp : Experience) :
    List (String × Nat) × List ((String × String) × Nat) :=
  match exp.experience.domains with
  | none => acc
  | some domains =>
    (domains.foldl bump acc.1, (pairsOf domains).foldl bump acc.2)

/-- `build_network`: fold the per-experience counting over the batch and
materialise the two maps as node and edge records. -/
def build_network (experiences : List Experience) : DomainNetwork :=
  let maps := experiences.foldl processExperience ([], [])
  { nodes := maps.1.map fun p => { id := p.1, size := p.2 }
    edges := maps.2.map fun p => { source := p.1.1, target := p.1.2, weight := p.2 } }

/-- `jaccard_similarity` on already-decoded string lists: dedupe each side
into a set (`HashSet` modelled as `Finset` via `List.toFinset`), then the
guarded intersection-over-union ratio; the `f64` ratio of two small exact
naturals is modelled as `Rat`. -/
def jaccard_similarity (set1 set2 : List String) : Rat :=
  let s1 := set1.toFinset
  let s2 := set2.toFinset
  let intersection := (s1 ∩ s2).card
  let union := (s1 ∪ s2).card
  if union = 0 then 0 else (intersection : Rat) / (union : Rat)

/-! Specification-side definitions used to state the claims. -/

/-- Total number of occurrences of domain `d` across the batch, counting a
repeated domain inside one record's list once per repetition. -/
def domainOccurrences (experiences : List Experience) (d : String) : Nat :=
  (experiences.map fun e => (e.experience.domains.getD []).count d).sum

/-- Number of experiences whose domains list contains `d` (each experience
contributing at most once), the count named by the claim about node sizes. -/
def experiencesContaining (experiences : List Experience) (d : String) : Nat :=
  (experiences.filter fun e => d ∈ e.experience.domains.getD []).length

/-- A structurally complete experience whose domains list repeats `"a"`. -/
def expDup : Experience :=
  { id := "x", timestamp := "t", learner := { id := "l" }
    context := { location := { name := "loc", coordinates := none } }
    experience := { type_field := "ty", description := "de", domains := some ["a", "a"] } }

/-- A structurally complete experience with domains `["math", "physics"]`. -/
def expMath : Experience :=
  { id := "x2", timestamp := "t2", learner := { id := "l2" }
    context := { location := { name := "loc2", coordinates := none } }
    experience := { type_field := "ty2", description := "de2"
                    domains := some ["math", "physics"] } }

/-- A structurally complete experience with the single domain `["solo"]`. -/
def expSolo : Experience :=
  { id := "x3", timestamp := "t3", learner := { id := "l3" }
    context := { location := { name := "loc3", coordinates := none } }
    experience := { type_field := "ty3", description := "de3"
                    domains := some ["solo"] } }

/-- Value stored for key `k` in an association-list map (0 when absent),
the reading of `HashMap::get` used to reason about `bump`. -/
def getCount {α : Type} [DecidableEq α] : List (α × Nat) → α → Nat
  | [], _ => 0
  | (k', v) :: rest, k => if k' = k then v else getCount rest k

/-- Keys of an association-list map, in insertion order. -/
def keysOf {α : Type} (m : List (α × Nat)) : List α :=
  m.map Prod.fst

/-! Helper lemmas about the validator. -/

theorem ite_append_list (c : Prop) [Decidable c] (l a : List String) :
    (if c then l ++ a else l) = l ++ (if c then a else []) := by
  split_ifs <;> simp

theorem mem_ite_singleton {x m : String} {c : Prop} [Decidable c] :
    (x ∈ if c then [m] else ([] : List String)) ↔ c ∧ x = m := by
  split_ifs with h <;> simp [h]

theorem validate_experience_errors (v : ExperienceValidator) (exp : Experience) :
    (v.validate_experience exp).errors =
      (if exp.id.isEmpty then ["id is required"] else [])
      ++ (if exp.timestamp.isEmpty then ["timestamp is required"] else [])
      ++ (if exp.learner.id.isEmpty then ["learner.id is required"] else [])
      ++ (if exp.context.location.name.isEmpty then ["context.location.name is required"] else [])
      ++ (if exp.experience.type_field.isEmpty then ["experience.type is required"] else [])
      ++ (if exp.experience.description.isEmpty then ["experience.description is required"] else [])
      ++ (match exp.context.location.coordinates with
          | none => []
          | some coords =>
            (if coords.latitude < -90 ∨ coords.latitude > 90 then
              ["latitude must be between -90 and 90"] else [])
            ++ (if coords.longitude < -180 ∨ coords.longitude > 180 then
              ["longitude must be between -180 and 180"] else [])) := by
  cases hc : exp.context.location.coordinates with
  | none =>
    simp only [ExperienceValidator.validate_experience, hc]
    simp only [ite_append_list]
    simp [List.append_assoc]
  | some coords =>
    simp only [ExperienceValidator.validate_experience, hc]
    simp only [ite_append_list]
    simp [List.append_assoc]

theorem validate_experience_valid (v : ExperienceValidator) (exp : Experience) :
    (v.validate_experience exp).valid = (v.validate_experience exp).errors.isEmpty :=
  rfl

/-- Claim C1: on a successfully parsed record, `validate_experience` runs all
checks in the fixed order (id, timestamp, learner.id, context.location.name,
experience.type, experience.description, then coordinates), appending the
exact message for each violated check without short-circuiting; each required
field's message appears exactly when that field is the empty string,
independently of every other field, and `valid` is true exactly when no
message was produced. -/
theorem claim1_validate_runs_all_checks_in_order (v : ExperienceValidator) (exp : Experience) :
    ((v.validate_experience exp).errors =
      (if exp.id.isEmpty then ["id is required"] else [])
      ++ (if exp.timestamp.isEmpty then ["timestamp is required"] else [])
      ++ (if exp.learner.id.isEmpty then ["learner.id is required"] else [])
      ++ (if exp.context.location.name.isEmpty then ["context.location.name is required"] else [])
      ++ (if exp.experience.type_field.isEmpty then ["experience.type is required"] else [])
      ++ (if exp.experience.description.isEmpty then ["experience.description is required"] else [])
      ++ (match exp.context.location.coordinates with
          | none => []
          | some coords =>
            (if coords.latitude < -90 ∨ coords.latitude > 90 then
              ["latitude must be between -90 and 90"] else [])
            ++ (if coords.longitude < -180 ∨ coords.longitude > 180 then
              ["longitude must be between -180 and 180"] else [])))
    ∧ ("id is required" ∈ (v.validate_experience exp).errors ↔ exp.id = "")
    ∧ ("timestamp is required" ∈ (v.validate_experience exp).errors ↔ exp.timestamp = "")
    ∧ ("learner.id is required" ∈ (v.validate_experience exp).errors ↔ exp.learner.id = "")
    ∧ ("context.location.name is required" ∈ (v.validate_experience exp).errors ↔
        exp.context.location.name = "")
    ∧ ("experience.type is required" ∈ (v.validate_experience exp).errors ↔
        exp.experience.type_field = "")
    ∧ ("experience.description is required" ∈ (v.validate_experience exp).errors ↔
        exp.experience.description = "")
    ∧ ((v.validate_experience exp).valid = true ↔ (v.validate_experience exp).errors = []) := by
  refine ⟨validate_experience_errors v exp, ?_, ?_, ?_, ?_, ?_, ?_,
    by rw [validate_experience_valid, List.isEmpty_eq_true]⟩
  all_goals rw [validate_experience_errors]
  all_goals cases hc : exp.context.location.coordinates <;>
    simp [hc, mem_ite_singleton, String.isEmpty_iff]

/-- Claim C4: when the input cannot be parsed into the Experience shape,
`validate` returns `valid = false` with exactly one error message, that
message being `"Parse error: "` followed by the parser's detail string, and
no field-level check contributes anything. -/
theorem claim4_parse_failure_single_error (v : ExperienceValidator) (e : String) :
    (v.validate (Except.error e)).valid = false
    ∧ (v.validate (Except.error e)).errors = ["Parse error: " ++ e]
    ∧ (v.validate (Except.error e)).errors.length = 1 := by
  exact ⟨rfl, rfl, rfl⟩

/-- Claim C5: for a parsed Experience, the latitude message is reported
exactly when coordinates are present with latitude outside [-90, 90], and the
longitude message exactly when coordinates are present with longitude outside
[-180, 180]; in particular boundary values produce no error and absent
coordinates produce no coordinate error. -/
theorem claim5_coordinate_range_checks (v : ExperienceValidator) (exp : Experience) :
    ("latitude must be between -90 and 90" ∈ (v.validate_experience exp).errors ↔
      ∃ c, exp.context.location.coordinates = some c ∧ (c.latitude < -90 ∨ 90 < c.latitude))
    ∧ ("longitude must be between -180 and 180" ∈ (v.validate_experience exp).errors ↔
      ∃ c, exp.context.location.coordinates = some c ∧ (c.longitude < -180 ∨ 180 < c.longitude)) := by
  constructor
  all_goals rw [validate_experience_errors]
  all_goals cases hc : exp.context.location.coordinates <;>
    simp [hc, mem_ite_singleton, String.isEmpty_iff]

/-- Claim C8: the `strict_mode` flag has no observable effect on validation:
for every parse outcome, the validator constructed with `strict_mode = true`
and the one constructed with `strict_mode = false` return identical results. -/
theorem claim8_strict_mode_no_effect (input : Except String Experience) :
    (ExperienceValidator.new true).validate input =
      (ExperienceValidator.new false).validate input := by
  cases input <;> rfl

/-- Claim C9: every result produced by `validate` has `valid = true` exactly
when its `errors` list is empty. -/
theorem claim9_valid_iff_no_errors (v : ExperienceValidator)
    (input : Except String Experience) :
    (v.validate input).valid = true ↔ (v.validate input).errors = [] := by
  cases input with
  | ok exp =>
    have h := validate_experience_valid v exp
    simp only [ExperienceValidator.validate] at h ⊢
    rw [h, List.isEmpty_eq_true]
  | error e => simp [ExperienceValidator.validate]

/-! Helper lemmas about the association-list counting maps. -/

theorem getCount_bump_self {α : Type} [DecidableEq α] (m : List (α × Nat)) (k : α) :
    getCount (bump m k) k = getCount m k + 1 := by
  induction m with
  | nil => simp [bump, getCount]
  | cons p rest ih =>
    obtain ⟨k', v⟩ := p
    by_cases h : k' = k
    · simp [bump, getCount, h]
    · simp [bump, getCount, h, ih]

theorem getCount_bump_ne {α : Type} [DecidableEq α] (m : List (α × Nat)) {k k₀ : α}
    (h : k ≠ k₀) : getCount (bump m k₀) k = getCount m k := by
  induction m with
  | nil => simp [bump, getCount, Ne.symm h]
  | cons p rest ih =>
    obtain ⟨k', v⟩ := p
    by_cases hk : k' = k₀
    · subst hk
      simp [bump, getCount, Ne.symm h]
    · by_cases hk2 : k' = k
      · subst hk2
        simp [bump, getCount, hk, ih]
      · simp [bump, getCount, hk, hk2, ih]

theorem bump_values_pos {α : Type} [DecidableEq α] {m : List (α × Nat)} (k : α)
    (h : ∀ p ∈ m, 1 ≤ p.2) : ∀ p ∈ bump m k, 1 ≤ p.2 := by
  induction m with
  | nil => simp [bump]
  | cons q rest ih =>
    obtain ⟨k', v⟩ := q
    intro p hp
    by_cases hk : k' = k
    · simp only [bump, if_pos hk] at hp
      rcases List.mem_cons.mp hp with rfl | hrest
      · simp
      · exact h p (List.mem_cons_of_mem _ hrest)
    · simp only [bump, if_neg hk] at hp
      rcases List.mem_cons.mp hp with rfl | hrest
      · exact h _ (List.mem_cons_self _ _)
      · exact ih (fun q hq => h q (List.mem_cons_of_mem _ hq)) p hrest

theorem foldl_bump_values_pos {α : Type} [DecidableEq α] (l : List α)
    {m : List (α × Nat)} (h : ∀ p ∈ m, 1 ≤ p.2) : ∀ p ∈ l.foldl bump m, 1 ≤ p.2 := by
  induction l generalizing m with
  | nil => exact h
  | cons a l ih => exact ih (bump_values_pos a h)

theorem keysOf_bump {α : Type} [DecidableEq α] (m : List (α × Nat)) (k : α) :
    keysOf (bump m k) = if k ∈ keysOf m then keysOf m else keysOf m ++ [k] := by
  induction m with
  | nil => simp [bump, keysOf]
  | cons p rest ih =>
    obtain ⟨k', v⟩ := p
    by_cases h : k' = k
    · subst h
      simp [bump, keysOf]
    · simp only [bump, if_neg h, keysOf, List.map_cons]
      rw [show (bump rest k).map Prod.fst = keysOf (bump rest k) from rfl, ih]
      simp only [keysOf]
      by_cases hm : k ∈ rest.map Prod.fst <;>
        simp [hm, Ne.symm h, List.mem_cons]

theorem mem_keysOf_bump {α : Type} [DecidableEq α] {m : List (α × Nat)} {k k' : α}
    (h : k' ∈ keysOf (bump m k)) : k' ∈ keysOf m ∨ k' = k := by
  rw [keysOf_bump] at h
  by_cases hm : k ∈ keysOf m
  · rw [if_pos hm] at h
    exact Or.inl h
  · rw [if_neg hm] at h
    rcases List.mem_append.mp h with h1 | h1
    · exact Or.inl h1
    · exact Or.inr (List.mem_singleton.mp h1)

theorem nodup_keysOf_bump {α : Type} [DecidableEq α] {m : List (α × Nat)} (k : α)
    (h : (keysOf m).Nodup) : (keysOf (bump m k)).Nodup := by
  rw [keysOf_bump]
  by_cases hm : k ∈ keysOf m
  · rw [if_pos hm]
    exact h
  · rw [if_neg hm]
    simp [List.nodup_append, h, hm]

theorem nodup_keysOf_foldl_bump {α : Type} [DecidableEq α] (l : List α)
    {m : List (α × Nat)} (h : (keysOf m).Nodup) : (keysOf (l.foldl bump m)).Nodup := by
  induction l generalizing m with
  | nil => exact h
  | cons a l ih => exact ih (nodup_keysOf_bump a h)

theorem mem_keysOf_foldl_bump {α : Type} [DecidableEq α] (l : List α)
    {m : List (α × Nat)} {k' : α} (h : k' ∈ keysOf (l.foldl bump m)) :
    k' ∈ keysOf m ∨ k' ∈ l := by
  induction l generalizing m with
  | nil => exact Or.inl h
  | cons a l ih =>
    rcases ih h with h1 | h1
    · rcases mem_keysOf_bump h1 with h2 | h2
      · exact Or.inl h2
      · exact Or.inr (h2 ▸ List.mem_cons_self _ _)
    · exact Or.inr (List.mem_cons_of_mem _ h1)

theorem getCount_foldl_bump {α : Type} [DecidableEq α] (l : List α)
    (m : List (α × Nat)) (k : α) :
    getCount (l.foldl bump m) k = getCount m k + l.count k := by
  induction l generalizing m with
  | nil => simp
  | cons a l ih =>
    rw [List.foldl_cons, ih]
    by_cases h : a = k
    · subst h
      rw [getCount_bump_self]
      simp [List.count_cons]
      omega
    · rw [getCount_bump_ne m (Ne.symm h)]
      simp [List.count_cons, Ne.symm h]

theorem getCount_eq_of_mem {α : Type} [DecidableEq α] {m : List (α × Nat)}
    (hnd : (keysOf m).Nodup) {k : α} {v : Nat} (hm : (k, v) ∈ m) :
    v = getCount m k := by
  induction m with
  | nil => simp at hm
  | cons p rest ih =>
    obtain ⟨k', v'⟩ := p
    rcases List.mem_cons.mp hm with heq | hrest
    · obtain ⟨rfl, rfl⟩ := Prod.mk.injEq .. ▸ heq
      simp [getCount]
    · have hk : k' ≠ k := by
        intro hkk
        subst hkk
        exact (List.nodup_cons.mp hnd).1 (List.mem_map.mpr ⟨(k', v), hrest, rfl⟩)
      simp only [getCount, if_neg hk]
      exact ih (List.nodup_cons.mp hnd).2 hrest

/-! Helper lemmas about the per-experience fold of `build_network`. -/

theorem canonPair_le (a b : String) : (canonPair a b).1 ≤ (canonPair a b).2 := by
  unfold canonPair
  split_ifs with h
  · exact le_of_lt h
  · exact le_of_not_lt h

theorem pairsOf_canon (ds : List String) : ∀ p ∈ pairsOf ds, p.1 ≤ p.2 := by
  induction ds with
  | nil => simp [pairsOf]
  | cons d rest ih =>
    intro p hp
    rcases List.mem_append.mp hp with h1 | h1
    · obtain ⟨y, _, rfl⟩ := List.mem_map.mp h1
      exact canonPair_le d y
    · exact ih p h1

theorem foldl_process_nodes_getCount (exps : List Experience)
    (acc : List (String × Nat) × List ((String × String) × Nat)) (k : String) :
    getCount ((exps.foldl processExperience acc).1) k =
      getCount acc.1 k + domainOccurrences exps k := by
  induction exps generalizing acc with
  | nil => simp [domainOccurrences]
  | cons e exps ih =>
    rw [List.foldl_cons, ih]
    have hstep : getCount (processExperience acc e).1 k =
        getCount acc.1 k + (e.experience.domains.getD []).count k := by
      cases h : e.experience.domains with
      | none => simp [processExperience, h]
      | some ds => simp [processExperience, h, getCount_foldl_bump]
    rw [hstep]
    simp [domainOccurrences]
    omega

theorem foldl_process_nodes_nodup (exps : List Experience)
    (acc : List (String × Nat) × List ((String × String) × Nat))
    (h : (keysOf acc.1).Nodup) :
    (keysOf ((exps.foldl processExperience acc).1)).Nodup := by
  induction exps generalizing acc with
  | nil => exact h
  | cons e exps ih =>
    rw [List.foldl_cons]
    apply ih
    cases hd : e.experience.domains with
    | none => simpa [processExperience, hd] using h
    | some ds =>
      simp only [processExperience, hd]
      exact nodup_keysOf_foldl_bump ds h

theorem foldl_process_nodes_pos (exps : List Experience)
    (acc : List (String × Nat) × List ((String × String) × Nat))
    (h : ∀ p ∈ acc.1, 1 ≤ p.2) :
    ∀ p ∈ (exps.foldl processExperience acc).1, 1 ≤ p.2 := by
  induction exps generalizing acc with
  | nil => exact h
  | cons e exps ih =>
    rw [List.foldl_cons]
    apply ih
    cases hd : e.experience.domains with
    | none => simpa [processExperience, hd] using h
    | some ds =>
      simp only [processExperience, hd]
      exact foldl_bump_values_pos ds h

theorem foldl_process_edges_pos (exps : List Experience)
    (acc : List (String × Nat) × List ((String × String) × Nat))
    (h : ∀ p ∈ acc.2, 1 ≤ p.2) :
    ∀ p ∈ (exps.foldl processExperience acc).2, 1 ≤ p.2 := by
  induction exps generalizing acc with
  | nil => exact h
  | cons e exps ih =>
    rw [List.foldl_cons]
    apply ih
    cases hd : e.experience.domains with
    | none => simpa [processExperience, hd] using h
    | some ds =>
      simp only [processExperience, hd]
      exact foldl_bump_values_pos (pairsOf ds) h

theorem foldl_process_edges_nodup (exps : List Experience)
    (acc : List (String × Nat) × List ((String × String) × Nat))
    (h : (keysOf acc.2).Nodup) :
    (keysOf ((exps.foldl processExperience acc).2)).Nodup := by
  induction exps generalizing acc with
  | nil => exact h
  | cons e exps ih =>
    rw [List.foldl_cons]
    apply ih
    cases hd : e.experience.domains with
    | none => simpa [processExperience, hd] using h
    | some ds =>
      simp only [processExperience, hd]
      exact nodup_keysOf_foldl_bump (pairsOf ds) h

theorem foldl_process_edges_canon (exps : List Experience)
    (acc : List (String × Nat) × List ((String × String) × Nat))
    (h : ∀ p ∈ keysOf acc.2, p.1 ≤ p.2) :
    ∀ p ∈ keysOf ((exps.foldl processExperience acc).2), p.1 ≤ p.2 := by
  induction exps generalizing acc with
  | nil => exact h
  | cons e exps ih =>
    rw [List.foldl_cons]
    apply ih
    cases hd : e.experience.domains with
    | none => simpa [processExperience, hd] using h
    | some ds =>
      simp only [processExperience, hd]
      intro p hp
      rcases mem_keysOf_foldl_bump (pairsOf ds) hp with h1 | h1
      · exact h p h1
      · exact pairsOf_canon ds p h1

/-- Claim C2, counterexample: for the single-record batch whose domains list
is `["a", "a"]`, the node for `"a"` has size 2, while only one experience
contains that domain, so node sizes are not the per-experience counts the
claim states. -/
theorem claim2_counterexample :
    ¬ (∀ n ∈ (build_network [expDup]).nodes,
        n.size = experiencesContaining [expDup] n.id) := by
  decide

/-- Claim C2, amended: each NetworkNode produced by `build_network` has size
equal to the total number of occurrences of that domain across the batch,
where a domain repeated inside one record's domains list is counted once per
repetition (not once per experience). -/
theorem claim2_amended_node_sizes (exps : List Experience) :
    ∀ n ∈ (build_network exps).nodes, n.size = domainOccurrences exps n.id := by
  intro n hn
  simp only [build_network, List.mem_map] at hn
  obtain ⟨p, hp, rfl⟩ := hn
  show p.2 = domainOccurrences exps p.1
  have hnd : (keysOf ((exps.foldl processExperience ([], [])).1)).Nodup :=
    foldl_process_nodes_nodup exps ([], []) (by simp [keysOf])
  have h2 := getCount_eq_of_mem hnd hp
  rw [h2, foldl_process_nodes_getCount]
  simp [getCount]

/-- Claim C2, amended, witness at the single-domain batch `[expSolo]`. -/
theorem claim2_amended_witness :
    ({ id := "solo", size := 1 } : NetworkNode).size =
      domainOccurrences [expSolo] ({ id := "solo", size := 1 } : NetworkNode).id :=
  claim2_amended_node_sizes [expSolo] { id := "solo", size := 1 } (by decide)

/-- Claim C3, counterexample: the batch `[expDup]` (domains `["a", "a"]`)
produces the self-referential edge from `"a"` to `"a"`, whose source is not
strictly less than its target. -/
theorem claim3_counterexample :
    ¬ (∀ e ∈ (build_network [expDup]).edges, e.source < e.target) := by
  intro h
  have hcanon : canonPair "a" "a" = ("a", "a") := by
    simp [canonPair, gt_iff_lt, lt_irrefl]
  have hmem : ({ source := "a", target := "a", weight := 1 } : NetworkEdge) ∈
      (build_network [expDup]).edges := by
    simp [build_network, processExperience, expDup, pairsOf, hcanon, bump]
  exact absurd (h _ hmem) (lt_irrefl "a")

/-- Claim C3, amended: every edge produced by `build_network` has
`source ≤ target` in lexicographic string order (equality arises exactly from
a domain repeated within one record's list), and no two edges carry the same
(source, target) pair, so no unordered pair is represented twice. -/
theorem claim3_amended_canonical_edges (exps : List Experience) :
    (∀ e ∈ (build_network exps).edges, e.source ≤ e.target)
    ∧ ((build_network exps).edges.map fun e => (e.source, e.target)).Nodup := by
  constructor
  · intro e he
    simp only [build_network, List.mem_map] at he
    obtain ⟨p, hp, rfl⟩ := he
    show p.1.1 ≤ p.1.2
    exact foldl_process_edges_canon exps ([], []) (by simp [keysOf]) p.1
      (List.mem_map.mpr ⟨p, hp, rfl⟩)
  · have hkeys : ((build_network exps).edges.map fun e => (e.source, e.target)) =
        keysOf ((exps.foldl processExperience ([], [])).2) := by
      simp only [build_network, keysOf, List.map_map]
      rfl
    rw [hkeys]
    exact foldl_process_edges_nodup exps ([], []) (by simp [keysOf])

/-- Claim C3, amended, witness at the batch `[expMath]`, whose only edge is
the canonically ordered pair (math, physics). -/
theorem claim3_amended_witness :
    ({ source := "math", target := "physics", weight := 1 } : NetworkEdge).source ≤
      ({ source := "math", target := "physics", weight := 1 } : NetworkEdge).target :=
  (claim3_amended_canonical_edges [expMath]).1 _ (by
    have hlt : ¬ (("physics" : String) < "math") := by
      rw [String.lt_iff_toList_lt]
      decide
    have hcanon : canonPair "math" "physics" = ("math", "physics") := by
      simp [canonPair, gt_iff_lt, hlt]
    simp [build_network, processExperience, expMath, pairsOf, hcanon, bump])

/-- Claim C10: `build_network` never emits a zero-count entry: every node has
size at least 1 and every edge has weight at least 1. -/
theorem claim10_no_zero_counts (exps : List Experience) :
    (∀ n ∈ (build_network exps).nodes, 1 ≤ n.size)
    ∧ (∀ e ∈ (build_network exps).edges, 1 ≤ e.weight) := by
  constructor
  · intro n hn
    simp only [build_network, List.mem_map] at hn
    obtain ⟨p, hp, rfl⟩ := hn
    exact foldl_process_nodes_pos exps ([], []) (by simp) p hp
  · intro e he
    simp only [build_network, List.mem_map] at he
    obtain ⟨p, hp, rfl⟩ := he
    exact foldl_process_edges_pos exps ([], []) (by simp) p hp

/-- Claim C10, witness at the single-domain batch `[expSolo]`. -/
theorem claim10_witness :
    1 ≤ ({ id := "solo", size := 1 } : NetworkNode).size :=
  (claim10_no_zero_counts [expSolo]).1 { id := "solo", size := 1 } (by decide)

/-! Helper lemma about deduplication for the similarity scorer. -/

theorem dedup_toFinset_eq (l : List String) : l.dedup.toFinset = l.toFinset :=
  List.toFinset.ext_iff.mpr fun _ => List.mem_dedup

/-- Claim C6: `jaccard_similarity` deduplicates each input into a set and
returns intersection size over union size; the division is guarded so that
two inputs that are empty after deduplication yield exactly 0 (never an
undefined value), and the spec's sample values hold. -/
theorem claim6_jaccard_guarded_ratio :
    (∀ l1 l2 : List String, jaccard_similarity l1 l2 =
      ((l1.toFinset ∩ l2.toFinset).card : Rat) / ((l1.toFinset ∪ l2.toFinset).card : Rat))
    ∧ (∀ l1 l2 : List String,
        jaccard_similarity l1.dedup l2.dedup = jaccard_similarity l1 l2)
    ∧ jaccard_similarity [] [] = 0
    ∧ jaccard_similarity ["a"] ["a"] = 1
    ∧ jaccard_similarity ["a", "b"] ["b", "c"] = 1 / 3 := by
  refine ⟨?_, ?_, ?_, ?_, ?_⟩
  · intro l1 l2
    by_cases h : (l1.toFinset ∪ l2.toFinset).card = 0
    · simp [jaccard_similarity, h]
    · simp [jaccard_similarity, h]
  · intro l1 l2
    simp [jaccard_similarity, dedup_toFinset_eq]
  · simp [jaccard_similarity]
  · simp [jaccard_similarity]
  · have h1 : ((["a", "b"] : List String).toFinset ∩
        (["b", "c"] : List String).toFinset).card = 1 := by decide
    have h2 : ((["a", "b"] : List String).toFinset ∪
        (["b", "c"] : List String).toFinset).card = 3 := by decide
    simp [jaccard_similarity, h1, h2]

/-- Claim C7: `jaccard_similarity` is symmetric in its two arguments. -/
theorem claim7_jaccard_symmetric (l1 l2 : List String) :
    jaccard_similarity l1 l2 = jaccard_similarity l2 l1 := by
  simp only [jaccard_similarity]
  rw [Finset.inter_comm, Finset.union_comm]

end Ubicity
